import Mathlib

/-!
Verification of the event-utility layer (`src/src/mxgraph/util/event/mxEvent.js`)
and, where the repository ships only callers of the graph core, a model of the
transactional graph model built from the design document.
-/

namespace MxEventSpec

/--
State of a native DOM event as far as `mxEvent.consume` and `mxEvent.isConsumed`
observe and mutate it.  `hasPreventDefault` records whether the event object
carries a `preventDefault` method (the code branches on its presence).  The
`preventDefaultCalls` / `stopPropagationCalls` counters record invocations of
the corresponding methods.
-/
structure NativeEvent where
  hasPreventDefault : Bool
  isConsumed : Option Bool
  cancelBubble : Bool
  returnValue : Option Bool
  preventDefaultCalls : Nat
  stopPropagationCalls : Nat
  deriving DecidableEq

namespace mxEvent

/-- Embeds `mxEvent.isConsumed` (mxEvent.js lines 439-441):
`evt.isConsumed != null && evt.isConsumed`. -/
def isConsumed (evt : NativeEvent) : Bool :=
  evt.isConsumed.getD false

/-- Embeds `mxEvent.consume` (mxEvent.js lines 638-661).  The two optional
boolean arguments default to `true` when absent (`none`). -/
def consume (evt : NativeEvent) (preventDefault stopPropagation : Option Bool) :
    NativeEvent :=
  let pd := preventDefault.getD true
  let sp := stopPropagation.getD true
  let evt1 :=
    if pd then
      if evt.hasPreventDefault then
        let e1 := if sp then
          { evt with stopPropagationCalls := evt.stopPropagationCalls + 1 }
          else evt
        { e1 with preventDefaultCalls := e1.preventDefaultCalls + 1 }
      else if sp then { evt with cancelBubble := true } else evt
    else evt
  let evt2 := { evt1 with isConsumed := some true }
  if evt2.hasPreventDefault then evt2 else { evt2 with returnValue := some false }

/-- Embeds the constant `mxEvent.MOUSE_DOWN`. -/
def MOUSE_DOWN : String := "mouseDown"

/-- Embeds the constant `mxEvent.MOUSE_MOVE`. -/
def MOUSE_MOVE : String := "mouseMove"

/-- Embeds the constant `mxEvent.MOUSE_UP`. -/
def MOUSE_UP : String := "mouseUp"

end mxEvent

/-- C2: for every event object and every combination of the optional
`preventDefault` and `stopPropagation` arguments, after
`mxEvent.consume(evt, preventDefault, stopPropagation)` returns,
`mxEvent.isConsumed(evt)` returns true. -/
theorem consume_sets_isConsumed (evt : NativeEvent) (pd sp : Option Bool) :
    mxEvent.isConsumed (mxEvent.consume evt pd sp) = true := by
  unfold mxEvent.consume mxEvent.isConsumed
  cases hpd : pd.getD true <;> cases hsp : sp.getD true <;>
    cases hh : evt.hasPreventDefault <;> simp [hpd, hsp, hh]

/-- C10: `mxEvent.consume` stops propagation only when the effective
`preventDefault` flag is true: `consume(evt, false, s)` invokes neither
`evt.stopPropagation` nor the `cancelBubble` fallback for any value of `s`,
while `evt.isConsumed` is still set to true. -/
theorem consume_false_skips_stopPropagation (evt : NativeEvent) (s : Option Bool) :
    (mxEvent.consume evt (some false) s).stopPropagationCalls =
      evt.stopPropagationCalls ∧
    (mxEvent.consume evt (some false) s).cancelBubble = evt.cancelBubble ∧
    mxEvent.isConsumed (mxEvent.consume evt (some false) s) = true := by
  unfold mxEvent.consume mxEvent.isConsumed
  cases hh : evt.hasPreventDefault <;> simp [hh]

/-- Calls that the listeners installed by `mxEvent.redirectMouseEvents` can
make on their collaborators: forwarding into the graph dispatch loop
(`graph.fireMouseEvent`, `graph.dblClick`) or invoking one of the optional
override callbacks. -/
inductive GraphCall where
  | fireMouseEvent (name : String)
  | dblClick
  | overrideDown
  | overrideMove
  | overrideUp
  | overrideDblClick
  deriving DecidableEq

/-- Embeds the mouse-down listener installed by `mxEvent.redirectMouseEvents`
(mxEvent.js lines 218-227) as a trace of collaborator calls; `hasDown` records
whether the optional `down` override was supplied (non-null). -/
def redirectDownListener (hasDown : Bool) (evt : NativeEvent) : List GraphCall :=
  if hasDown then [GraphCall.overrideDown]
  else if ¬ mxEvent.isConsumed evt then [GraphCall.fireMouseEvent mxEvent.MOUSE_DOWN]
  else []

/-- Embeds the mouse-move listener installed by `mxEvent.redirectMouseEvents`
(mxEvent.js lines 228-237). -/
def redirectMoveListener (hasMove : Bool) (evt : NativeEvent) : List GraphCall :=
  if hasMove then [GraphCall.overrideMove]
  else if ¬ mxEvent.isConsumed evt then [GraphCall.fireMouseEvent mxEvent.MOUSE_MOVE]
  else []

/-- Embeds the mouse-up listener installed by `mxEvent.redirectMouseEvents`
(mxEvent.js lines 238-247). -/
def redirectUpListener (hasUp : Bool) (evt : NativeEvent) : List GraphCall :=
  if hasUp then [GraphCall.overrideUp]
  else if ¬ mxEvent.isConsumed evt then [GraphCall.fireMouseEvent mxEvent.MOUSE_UP]
  else []

/-- Embeds the dblclick listener installed by `mxEvent.redirectMouseEvents`
(mxEvent.js lines 250-257). -/
def redirectDblClickListener (hasDblClick : Bool) (evt : NativeEvent) :
    List GraphCall :=
  if hasDblClick then [GraphCall.overrideDblClick]
  else if ¬ mxEvent.isConsumed evt then [GraphCall.dblClick]
  else []

/-- C3: for every consumed event, the four listeners installed by
`redirectMouseEvents` with no override callbacks invoke neither
`graph.fireMouseEvent` nor `graph.dblClick` (empty call trace); and whenever an
override callback is supplied, that override is invoked on any event,
regardless of whether it is consumed. -/
theorem redirect_listeners_respect_consume (evt evt2 : NativeEvent)
    (h : mxEvent.isConsumed evt = true) :
    redirectDownListener false evt = [] ∧
    redirectMoveListener false evt = [] ∧
    redirectUpListener false evt = [] ∧
    redirectDblClickListener false evt = [] ∧
    redirectDownListener true evt2 = [GraphCall.overrideDown] ∧
    redirectMoveListener true evt2 = [GraphCall.overrideMove] ∧
    redirectUpListener true evt2 = [GraphCall.overrideUp] ∧
    redirectDblClickListener true evt2 = [GraphCall.overrideDblClick] := by
  unfold redirectDownListener redirectMoveListener redirectUpListener
    redirectDblClickListener
  simp [h]

/-- A native event already marked consumed (used as a concrete input). -/
def consumedEvt : NativeEvent :=
  { hasPreventDefault := true, isConsumed := some true, cancelBubble := false,
    returnValue := none, preventDefaultCalls := 0, stopPropagationCalls := 0 }

/-- A fresh, unconsumed native event (used as a concrete input). -/
def plainEvt : NativeEvent :=
  { hasPreventDefault := true, isConsumed := none, cancelBubble := false,
    returnValue := none, preventDefaultCalls := 0, stopPropagationCalls := 0 }

/-- Witness for C3 at a concrete consumed event. -/
theorem redirect_listeners_respect_consume_witness :
    mxEvent.isConsumed consumedEvt = true ∧
    (redirectDownListener false consumedEvt = [] ∧
     redirectMoveListener false consumedEvt = [] ∧
     redirectUpListener false consumedEvt = [] ∧
     redirectDblClickListener false consumedEvt = [] ∧
     redirectDownListener true plainEvt = [GraphCall.overrideDown] ∧
     redirectMoveListener true plainEvt = [GraphCall.overrideMove] ∧
     redirectUpListener true plainEvt = [GraphCall.overrideUp] ∧
     redirectDblClickListener true plainEvt = [GraphCall.overrideDblClick]) :=
  ⟨by decide, redirect_listeners_respect_consume consumedEvt plainEvt (by decide)⟩

/-- A single entry of a `touches` / `changedTouches` list. -/
structure Touch where
  clientX : Int
  clientY : Int
  deriving DecidableEq

/-- A DOM UI event as observed by `mxEvent.getMainEvent`: its `type` string,
the optional `touches` and `changedTouches` lists, and its own client
coordinates. -/
structure UIEvent where
  type : String
  touches : Option (List Touch)
  changedTouches : Option (List Touch)
  clientX : Int
  clientY : Int
  deriving DecidableEq

/-- Result of `mxEvent.getMainEvent`: either a touch object or the event
itself. -/
inductive MainEventResult where
  | touchObj (t : Touch)
  | eventObj (e : UIEvent)
  deriving DecidableEq

/-- The `else if` branch of `mxEvent.getMainEvent` (mxEvent.js lines 602-608):
a `touchend` event with a non-empty `changedTouches` list yields its first
changed touch, anything else yields the event itself. -/
def mainEventTouchend (e : UIEvent) : MainEventResult :=
  if e.type = "touchend" then
    match e.changedTouches with
    | some (t :: _) => MainEventResult.touchObj t
    | _ => MainEventResult.eventObj e
  else MainEventResult.eventObj e

/-- Embeds `mxEvent.getMainEvent` (mxEvent.js lines 595-610). -/
def getMainEvent (e : UIEvent) : MainEventResult :=
  if e.type = "touchstart" ∨ e.type = "touchmove" then
    match e.touches with
    | some (t :: _) => MainEventResult.touchObj t
    | _ => mainEventTouchend e
  else mainEventTouchend e

/-- The `clientX` of whatever `getMainEvent` returned. -/
def MainEventResult.clientX : MainEventResult → Int
  | MainEventResult.touchObj t => t.clientX
  | MainEventResult.eventObj e => e.clientX

/-- The `clientY` of whatever `getMainEvent` returned. -/
def MainEventResult.clientY : MainEventResult → Int
  | MainEventResult.touchObj t => t.clientY
  | MainEventResult.eventObj e => e.clientY

/-- Embeds `mxEvent.getClientX` (mxEvent.js lines 616-618). -/
def getClientX (e : UIEvent) : Int :=
  (getMainEvent e).clientX

/-- Embeds `mxEvent.getClientY` (mxEvent.js lines 624-626). -/
def getClientY (e : UIEvent) : Int :=
  (getMainEvent e).clientY

/-- C7: `getClientX` / `getClientY` return the coordinates of `touches[0]` for
touchstart/touchmove events with a non-empty `touches` list, of
`changedTouches[0]` for touchend events with a non-empty `changedTouches`
list, and the event's own `clientX`/`clientY` for every other event. -/
theorem getClient_normalizes_touch (t : Touch) (ts : List Touch) (e : UIEvent) :
    ((e.type = "touchstart" ∨ e.type = "touchmove") →
      e.touches = some (t :: ts) →
      getClientX e = t.clientX ∧ getClientY e = t.clientY) ∧
    (e.type = "touchend" → e.changedTouches = some (t :: ts) →
      getClientX e = t.clientX ∧ getClientY e = t.clientY) ∧
    (¬ ((e.type = "touchstart" ∨ e.type = "touchmove") ∧
        ∃ u us, e.touches = some (u :: us)) →
      ¬ (e.type = "touchend" ∧ ∃ u us, e.changedTouches = some (u :: us)) →
      getClientX e = e.clientX ∧ getClientY e = e.clientY) := by
  refine ⟨?_, ?_, ?_⟩
  · intro hty htou
    unfold getClientX getClientY getMainEvent
    simp [hty, htou, MainEventResult.clientX, MainEventResult.clientY]
  · intro hty hch
    have hne : ¬ (e.type = "touchstart" ∨ e.type = "touchmove") := by
      rw [hty]; simp
    unfold getClientX getClientY getMainEvent mainEventTouchend
    simp [hne, hty, hch, MainEventResult.clientX, MainEventResult.clientY]
  · intro h1 h2
    unfold getClientX getClientY getMainEvent mainEventTouchend
    by_cases hty : e.type = "touchstart" ∨ e.type = "touchmove"
    · have htou : ∀ u us, e.touches ≠ some (u :: us) := by
        intro u us hc
        exact h1 ⟨hty, u, us, hc⟩
      have hte : ¬ e.type = "touchend" := by
        rcases hty with h | h <;> rw [h] <;> simp
      rcases htou2 : e.touches with _ | ⟨_ | ⟨u, us⟩⟩ <;>
        simp [hty, hte, MainEventResult.clientX, MainEventResult.clientY]
      exact absurd htou2 (htou u us)
    · by_cases hte : e.type = "touchend"
      · have hch : ∀ u us, e.changedTouches ≠ some (u :: us) := by
          intro u us hc
          exact h2 ⟨hte, u, us, hc⟩
        rcases hch2 : e.changedTouches with _ | ⟨_ | ⟨u, us⟩⟩ <;>
          simp [hty, hte, MainEventResult.clientX, MainEventResult.clientY]
        exact absurd hch2 (hch u us)
      · simp [hty, hte, MainEventResult.clientX, MainEventResult.clientY]

/-- A concrete touchstart event with one touch at (11, 22) and its own
coordinates (5, 6). -/
def touchStartEvt : UIEvent :=
  { type := "touchstart", touches := some [⟨11, 22⟩], changedTouches := none,
    clientX := 5, clientY := 6 }

/-- Witness for C7 at a concrete touchstart event: the coordinates come from
`touches[0]`, not from the event itself. -/
theorem getClient_normalizes_touch_witness :
    getClientX touchStartEvt = 11 ∧ getClientY touchStartEvt = 22 :=
  (getClient_normalizes_touch ⟨11, 22⟩ [] touchStartEvt).1 (Or.inl rfl) rfl

/-- One `{ name, f }` entry of an element's `mxListenerList` bookkeeping array
(handler functions are identified by a numeric id, mirroring JavaScript
function identity). -/
structure ListenerEntry where
  name : String
  f : Nat
  deriving DecidableEq

/-- A DOM node as observed by the listener functions: the set of natively
registered `(type, listener)` pairs (`addEventListener` ignores exact
duplicates) and the `mxListenerList` expando field. -/
structure DomElem where
  native : List (String × Nat)
  mxListenerList : Option (List ListenerEntry)
  deriving DecidableEq

/-- Native `addEventListener`: appends the `(type, listener)` pair unless the
identical pair is already registered. -/
def addEventListenerNative (l : List (String × Nat)) (name : String) (f : Nat) :
    List (String × Nat) :=
  if (name, f) ∈ l then l else l ++ [(name, f)]

/-- Native `removeEventListener`: removes the first registration matching both
the event type and the listener. -/
def removeEventListenerNative : List (String × Nat) → String → Nat →
    List (String × Nat)
  | [], _, _ => []
  | p :: ps, name, f =>
    if p = (name, f) then ps else p :: removeEventListenerNative ps name f

namespace mxEvent

/-- Embeds `mxEvent.addListener` (mxEvent.js lines 49-60): registers natively,
creates `mxListenerList` if absent, and pushes the `{ name, f }` entry. -/
def addListener (element : DomElem) (eventName : String) (funct : Nat) :
    DomElem :=
  let native := addEventListenerNative element.native eventName funct
  let list := match element.mxListenerList with
    | none => []
    | some l => l
  { native := native, mxListenerList := some (list ++ [⟨eventName, funct⟩]) }

/-- The splice loop of `mxEvent.removeListener` (mxEvent.js lines 72-79):
removes the first entry whose `f` equals the function, ignoring the recorded
event name. -/
def removeFirstByF (funct : Nat) : List ListenerEntry → List ListenerEntry
  | [] => []
  | e :: rest => if e.f = funct then rest else e :: removeFirstByF funct rest

/-- Embeds `mxEvent.removeListener` (mxEvent.js lines 66-84): removes natively
by `(eventName, funct)`, splices the first `f`-matching bookkeeping entry, and
nulls the field when the list becomes empty. -/
def removeListener (element : DomElem) (eventName : String) (funct : Nat) :
    DomElem :=
  let native := removeEventListenerNative element.native eventName funct
  match element.mxListenerList with
  | none => { element with native := native }
  | some l =>
    let l2 := removeFirstByF funct l
    if l2.length = 0 then { native := native, mxListenerList := none }
    else { native := native, mxListenerList := some l2 }

/-- The `while (list.length > 0)` loop of `mxEvent.removeAllListeners`
(mxEvent.js lines 93-97), with fuel bounding the number of iterations. -/
def removeAllLoop : Nat → DomElem → DomElem
  | 0, element => element
  | fuel + 1, element =>
    match element.mxListenerList with
    | none => element
    | some [] => element
    | some (e :: _) => removeAllLoop fuel (removeListener element e.name e.f)

/-- Embeds `mxEvent.removeAllListeners` (mxEvent.js lines 90-99): repeatedly
removes the first recorded entry until the list is empty.  Each loop iteration
removes exactly the head entry, so the captured list length is enough fuel. -/
def removeAllListeners (element : DomElem) : DomElem :=
  match element.mxListenerList with
  | none => element
  | some l => removeAllLoop l.length element

/-- Embeds `mxEvent.addGestureListeners` (mxEvent.js lines 110-148).
`isPointer` and `isTouch` stand for `mxClient.IS_POINTER` / `mxClient.IS_TOUCH`;
the three listeners are nullable (`none` is skipped). -/
def addGestureListeners (isPointer isTouch : Bool) (node : DomElem)
    (startListener moveListener endListener : Option Nat) : DomElem :=
  let node := match startListener with
    | some f => addListener node (if isPointer then "pointerdown" else "mousedown") f
    | none => node
  let node := match moveListener with
    | some f => addListener node (if isPointer then "pointermove" else "mousemove") f
    | none => node
  let node := match endListener with
    | some f => addListener node (if isPointer then "pointerup" else "mouseup") f
    | none => node
  if ¬ isPointer ∧ isTouch then
    let node := match startListener with
      | some f => addListener node "touchstart" f
      | none => node
    let node := match moveListener with
      | some f => addListener node "touchmove" f
      | none => node
    match endListener with
    | some f => addListener node "touchend" f
    | none => node
  else node

/-- Embeds `mxEvent.removeGestureListeners` (mxEvent.js lines 156-199). -/
def removeGestureListeners (isPointer isTouch : Bool) (node : DomElem)
    (startListener moveListener endListener : Option Nat) : DomElem :=
  let node := match startListener with
    | some f => removeListener node (if isPointer then "pointerdown" else "mousedown") f
    | none => node
  let node := match moveListener with
    | some f => removeListener node (if isPointer then "pointermove" else "mousemove") f
    | none => node
  let node := match endListener with
    | some f => removeListener node (if isPointer then "pointerup" else "mouseup") f
    | none => node
  if ¬ isPointer ∧ isTouch then
    let node := match startListener with
      | some f => removeListener node "touchstart" f
      | none => node
    let node := match moveListener with
      | some f => removeListener node "touchmove" f
      | none => node
    match endListener with
    | some f => removeListener node "touchend" f
    | none => node
  else node

end mxEvent

/-- The recorded listener entries `addGestureListeners` produces on a fresh
node: pointer events when `isPointer`, otherwise mouse events, plus the touch
events when `isTouch` holds without pointer support. -/
def gestureEntries (isPointer isTouch : Bool) (s m e : Nat) :
    List ListenerEntry :=
  if isPointer then [⟨"pointerdown", s⟩, ⟨"pointermove", m⟩, ⟨"pointerup", e⟩]
  else if isTouch then
    [⟨"mousedown", s⟩, ⟨"mousemove", m⟩, ⟨"mouseup", e⟩,
     ⟨"touchstart", s⟩, ⟨"touchmove", m⟩, ⟨"touchend", e⟩]
  else [⟨"mousedown", s⟩, ⟨"mousemove", m⟩, ⟨"mouseup", e⟩]

/-- A DOM node with no native registrations and a null `mxListenerList`. -/
def freshElem : DomElem := { native := [], mxListenerList := none }

theorem addListener_mxList (el : DomElem) (name : String) (f : Nat) :
    (mxEvent.addListener el name f).mxListenerList =
      some (el.mxListenerList.getD [] ++ [⟨name, f⟩]) := by
  unfold mxEvent.addListener
  rcases h : el.mxListenerList with _ | l <;> simp [h]

theorem removeListener_mxList (el : DomElem) (name : String) (f : Nat) :
    (mxEvent.removeListener el name f).mxListenerList =
      (match el.mxListenerList with
       | none => none
       | some l =>
         if (mxEvent.removeFirstByF f l).length = 0 then none
         else some (mxEvent.removeFirstByF f l)) := by
  unfold mxEvent.removeListener
  rcases h : el.mxListenerList with _ | l
  · simp [h]
  · simp only [h]
    by_cases h2 : (mxEvent.removeFirstByF f l).length = 0 <;> simp [h2]

/-- C6: on any node whose recorded listener list is empty (null), for any
non-null start/move/end listener functions and any pointer/touch support
flags, `addGestureListeners` records exactly the expected set of listeners —
pointerdown/pointermove/pointerup under pointer support, otherwise the mouse
events plus the touch events under touch support — and `removeGestureListeners`
with the same arguments removes the same set, restoring the recorded listener
list to null. -/
theorem gesture_listeners_roundtrip (isPointer isTouch : Bool) (s m e : Nat)
    (native0 : List (String × Nat)) :
    (mxEvent.addGestureListeners isPointer isTouch ⟨native0, none⟩
        (some s) (some m) (some e)).mxListenerList =
      some (gestureEntries isPointer isTouch s m e) ∧
    (mxEvent.removeGestureListeners isPointer isTouch
        (mxEvent.addGestureListeners isPointer isTouch ⟨native0, none⟩
          (some s) (some m) (some e))
        (some s) (some m) (some e)).mxListenerList = none ∧
    mxEvent.removeGestureListeners isPointer isTouch
        (mxEvent.addGestureListeners isPointer isTouch freshElem
          (some s) (some m) (some e))
        (some s) (some m) (some e) = freshElem := by
  refine ⟨?_, ?_, ?_⟩
  · cases isPointer <;> cases isTouch <;>
      simp [mxEvent.addGestureListeners, addListener_mxList, gestureEntries]
  · cases isPointer <;> cases isTouch <;>
      simp [mxEvent.addGestureListeners, mxEvent.removeGestureListeners,
        addListener_mxList, removeListener_mxList, mxEvent.removeFirstByF]
  · cases isPointer <;> cases isTouch <;>
      simp [mxEvent.addGestureListeners, mxEvent.removeGestureListeners,
        mxEvent.addListener, mxEvent.removeListener, mxEvent.removeFirstByF,
        addEventListenerNative, removeEventListenerNative, freshElem]

/-- The operations of the `mxEvent` listener bookkeeping API. -/
inductive ListenerOp where
  | add (name : String) (f : Nat)
  | remove (name : String) (f : Nat)
  | removeAll
  deriving DecidableEq

/-- Applies one listener operation to an element. -/
def applyListenerOp (element : DomElem) : ListenerOp → DomElem
  | ListenerOp.add n f => mxEvent.addListener element n f
  | ListenerOp.remove n f => mxEvent.removeListener element n f
  | ListenerOp.removeAll => mxEvent.removeAllListeners element

/-- Applies a sequence of listener operations to a fresh element. -/
def applyListenerOps (ops : List ListenerOp) : DomElem :=
  ops.foldl applyListenerOp freshElem

/-- The C8 invariant: the `mxListenerList` field is null or non-empty. -/
def goodList (o : Option (List ListenerEntry)) : Prop :=
  o = none ∨ 0 < (o.getD []).length

theorem removeListener_good (element : DomElem) (n : String) (f : Nat) :
    goodList (mxEvent.removeListener element n f).mxListenerList := by
  unfold mxEvent.removeListener goodList
  rcases element.mxListenerList with _ | l
  · simp
  · simp only []
    rcases h : (mxEvent.removeFirstByF f l).length with _ | k
    · simp [h]
    · simp [h]

theorem removeAllLoop_good (fuel : Nat) (element : DomElem)
    (h : goodList element.mxListenerList) :
    goodList (mxEvent.removeAllLoop fuel element).mxListenerList := by
  induction fuel generalizing element with
  | zero => exact h
  | succ k ih =>
    unfold mxEvent.removeAllLoop
    rcases hl : element.mxListenerList with _ | (_ | ⟨e, rest⟩)
    · simpa [hl] using h
    · rcases h with h | h
      · rw [hl] at h; cases h
      · rw [hl] at h; simp at h
    · exact ih _ (removeListener_good _ _ _)

theorem applyListenerOp_good (element : DomElem) (op : ListenerOp)
    (h : goodList element.mxListenerList) :
    goodList (applyListenerOp element op).mxListenerList := by
  cases op with
  | add n f =>
    unfold applyListenerOp mxEvent.addListener goodList
    simp
  | remove n f => exact removeListener_good element n f
  | removeAll =>
    unfold applyListenerOp mxEvent.removeAllListeners
    rcases hl : element.mxListenerList with _ | l
    · simpa [hl] using h
    · exact removeAllLoop_good _ _ h

/-- C8: after any finite sequence of `addListener`, `removeListener`, and
`removeAllListeners` calls on a fresh element, the `mxListenerList` field is
either null or a non-empty array — never an empty array. -/
theorem listener_list_never_empty (ops : List ListenerOp) :
    (applyListenerOps ops).mxListenerList = none ∨
    0 < ((applyListenerOps ops).mxListenerList.getD []).length := by
  have key : ∀ (l : List ListenerOp) (element : DomElem),
      goodList element.mxListenerList →
      goodList (l.foldl applyListenerOp element).mxListenerList := by
    intro l
    induction l with
    | nil => intro element h; exact h
    | cons op rest ih =>
      intro element h
      exact ih _ (applyListenerOp_good element op h)
  exact key ops freshElem (Or.inl rfl)

/-- C9: `removeListener` matches on the function alone.  On an element whose
bookkeeping list holds the same function `f` under two different event names
`n1` then `n2` (with matching native registrations), removing under the second
name `n2` splices out the entry recorded for `n1` — the `n2` entry survives —
while the native layer removes the `(n2, f)` registration, leaving the two out
of sync. -/
theorem removeListener_ignores_name (n1 n2 : String) (f : Nat)
    (rest : List ListenerEntry) (h : n1 ≠ n2) :
    (mxEvent.removeListener
        { native := [(n1, f), (n2, f)],
          mxListenerList := some (⟨n1, f⟩ :: ⟨n2, f⟩ :: rest) }
        n2 f).mxListenerList = some (⟨n2, f⟩ :: rest) ∧
    (mxEvent.removeListener
        { native := [(n1, f), (n2, f)],
          mxListenerList := some (⟨n1, f⟩ :: ⟨n2, f⟩ :: rest) }
        n2 f).native = [(n1, f)] := by
  unfold mxEvent.removeListener
  simp [mxEvent.removeFirstByF, removeEventListenerNative, Prod.ext_iff, h]

/-- Witness for C9 with concrete names "mousedown" / "touchstart" and
function id 7. -/
theorem removeListener_ignores_name_witness :
    (mxEvent.removeListener
        { native := [("mousedown", 7), ("touchstart", 7)],
          mxListenerList := some [⟨"mousedown", 7⟩, ⟨"touchstart", 7⟩] }
        "touchstart" 7).mxListenerList = some [⟨"touchstart", 7⟩] ∧
    (mxEvent.removeListener
        { native := [("mousedown", 7), ("touchstart", 7)],
          mxListenerList := some [⟨"mousedown", 7⟩, ⟨"touchstart", 7⟩] }
        "touchstart" 7).native = [("mousedown", 7)] :=
  removeListener_ignores_name "mousedown" "touchstart" 7 [] (by decide)

end MxEventSpec

namespace GraphModelSpec

/-!
The transactional graph model, the change log and the undo manager are not
part of the sources shipped here (only their callers are), so this section is
modelled from the design document: cells carry a value, style, optional
geometry, vertex/edge markers, visibility/collapse flags, edge terminals and an
ordered child list; every primitive mutation validates, mutates, and appends a
self-describing reversible change-log entry; the outermost commit wraps the
log as an UndoableEdit pushed on a bounded undo stack; `undo()` pops an edit
and applies its entries in reverse order using each entry's stored before
state.  Cell identities are drawn from `Fin n` so that models stay executable.
-/

/-- Modelled from the spec: geometry value type — bounds for vertices, a list
of explicit points for edges. -/
structure MxGeometry where
  x : Int
  y : Int
  width : Int
  height : Int
  points : List (Int × Int)
  deriving DecidableEq

/-- Modelled from the spec: the mutable attributes of one cell.  The parent
relation is stored only on the parent side (ordered `children` list), so a
cell's tree position is the pair (parent owning it, index in that parent). -/
structure CellRec (n : Nat) where
  value : String
  style : String
  geometry : Option MxGeometry
  vertex : Bool
  edge : Bool
  visible : Bool
  collapsed : Bool
  source : Option (Fin n)
  target : Option (Fin n)
  children : List (Fin n)
  deriving DecidableEq

/-- Modelled from the spec: the graph model state — the root pointer and the
registry of existing cells. -/
structure Model (n : Nat) where
  root : Option (Fin n)
  cells : Fin n → Option (CellRec n)

theorem Model.ext_cells {n : Nat} {a b : Model n} (hr : a.root = b.root)
    (hc : a.cells = b.cells) : a = b := by
  cases a; cases b; cases hr; cases hc; rfl

/-- Modelled from the spec: a self-describing reversible change-log entry.
`childChange` covers create (`prev = none`), delete (`next = none`) and
reparent; `rec` carries the full cell record needed to recreate the cell on
the non-existing side. -/
inductive Entry (n : Nat) where
  | childChange (child : Fin n) (prev next : Option (Fin n × Nat)) (rc : CellRec n)
  | terminalChange (edge : Fin n) (isSource : Bool) (prev next : Option (Fin n))
  | geometryChange (cell : Fin n) (prev next : Option MxGeometry)
  | styleChange (cell : Fin n) (prev next : String)
  | valueChange (cell : Fin n) (prev next : String)
  | visibleChange (cell : Fin n) (prev next : Bool)
  | collapseChange (cell : Fin n) (prev next : Bool)
  | rootChange (prev next : Option (Fin n))
  deriving DecidableEq

variable {n : Nat}

/-- Replaces the registry slot of cell `c` by `v`. -/
def updCell (cs : Fin n → Option (CellRec n)) (c : Fin n)
    (v : Option (CellRec n)) : Fin n → Option (CellRec n) :=
  fun x => if x = c then v else cs x

/-- Rewrites the record of cell `c` (a no-op when `c` does not exist). -/
def modCell (cs : Fin n → Option (CellRec n)) (c : Fin n)
    (f : CellRec n → CellRec n) : Fin n → Option (CellRec n) :=
  fun x => if x = c then (cs x).map f else cs x

@[simp] theorem updCell_apply (cs : Fin n → Option (CellRec n)) (c : Fin n)
    (v : Option (CellRec n)) (x : Fin n) :
    updCell cs c v x = if x = c then v else cs x := rfl

@[simp] theorem modCell_apply (cs : Fin n → Option (CellRec n)) (c : Fin n)
    (f : CellRec n → CellRec n) (x : Fin n) :
    modCell cs c f x = if x = c then (cs x).map f else cs x := rfl

/-- Applies a change-log entry forward (using its `next` side). -/
def applyEntry (m : Model n) : Entry n → Model n
  | Entry.childChange c prev next rc =>
    match prev, next with
    | none, some (p, i) =>
      let cs := modCell (updCell m.cells c (some rc)) p
        (fun r => { r with children := r.children.insertIdx i c })
      { m with cells := cs }
    | some (p, i), none =>
      let cs := updCell (modCell m.cells p
        (fun r => { r with children := r.children.eraseIdx i })) c none
      { m with cells := cs }
    | some (p0, i0), some (p1, i1) =>
      let cs := modCell (modCell m.cells p0
        (fun r => { r with children := r.children.eraseIdx i0 })) p1
        (fun r => { r with children := r.children.insertIdx i1 c })
      { m with cells := cs }
    | none, none => m
  | Entry.terminalChange e isSrc _ next =>
    let cs := modCell m.cells e
      (fun r => if isSrc then { r with source := next } else { r with target := next })
    { m with cells := cs }
  | Entry.geometryChange c _ next =>
    { m with cells := modCell m.cells c (fun r => { r with geometry := next }) }
  | Entry.styleChange c _ next =>
    { m with cells := modCell m.cells c (fun r => { r with style := next }) }
  | Entry.valueChange c _ next =>
    { m with cells := modCell m.cells c (fun r => { r with value := next }) }
  | Entry.visibleChange c _ next =>
    { m with cells := modCell m.cells c (fun r => { r with visible := next }) }
  | Entry.collapseChange c _ next =>
    { m with cells := modCell m.cells c (fun r => { r with collapsed := next }) }
  | Entry.rootChange _ next => { m with root := next }

/-- Swaps the before/after sides of an entry. -/
def invertEntry : Entry n → Entry n
  | Entry.childChange c prev next rc => Entry.childChange c next prev rc
  | Entry.terminalChange e s prev next => Entry.terminalChange e s next prev
  | Entry.geometryChange c prev next => Entry.geometryChange c next prev
  | Entry.styleChange c prev next => Entry.styleChange c next prev
  | Entry.valueChange c prev next => Entry.valueChange c next prev
  | Entry.visibleChange c prev next => Entry.visibleChange c next prev
  | Entry.collapseChange c prev next => Entry.collapseChange c next prev
  | Entry.rootChange prev next => Entry.rootChange next prev

/-- Undoes an entry: applies it backward, restoring its stored before state. -/
def undoEntry (m : Model n) (e : Entry n) : Model n :=
  applyEntry m (invertEntry e)

/-- Index of the first occurrence of `x`. -/
def firstIdxOf [DecidableEq α] (x : α) : List α → Option Nat
  | [] => none
  | a :: l => if a = x then some 0 else (firstIdxOf x l).map (· + 1)

theorem insertIdx_eraseIdx_firstIdx [DecidableEq α] (x : α) (l : List α)
    (i : Nat) (h : firstIdxOf x l = some i) :
    (l.eraseIdx i).insertIdx i x = l := by
  induction l generalizing i with
  | nil => simp [firstIdxOf] at h
  | cons a l ih =>
    by_cases hax : a = x
    · simp [firstIdxOf, hax] at h
      subst h
      simp [List.eraseIdx, List.insertIdx_zero, hax]
    · simp [firstIdxOf, hax] at h
      rcases h with ⟨j, hj, hji⟩
      subst hji
      simp [List.eraseIdx, List.insertIdx_succ_cons, ih j hj]

theorem firstIdxOf_mem [DecidableEq α] (x : α) (l : List α) (i : Nat)
    (h : firstIdxOf x l = some i) : x ∈ l := by
  induction l generalizing i with
  | nil => simp [firstIdxOf] at h
  | cons a l ih =>
    by_cases hax : a = x
    · subst hax; exact List.mem_cons_self a l
    · simp [firstIdxOf, hax] at h
      rcases h with ⟨j, hj, _⟩
      exact List.mem_cons_of_mem a (ih j hj)

/-- Scans a candidate list for the cell whose ordered child list holds `c`,
returning that parent and the child's index. -/
def findParentIn (cs : Fin n → Option (CellRec n)) (c : Fin n) :
    List (Fin n) → Option (Fin n × Nat)
  | [] => none
  | p :: ps =>
    match cs p with
    | some pr =>
      match firstIdxOf c pr.children with
      | some i => some (p, i)
      | none => findParentIn cs c ps
    | none => findParentIn cs c ps

theorem findParentIn_sound (cs : Fin n → Option (CellRec n)) (c : Fin n)
    (l : List (Fin n)) (p : Fin n) (i : Nat)
    (h : findParentIn cs c l = some (p, i)) :
    ∃ pr, cs p = some pr ∧ firstIdxOf c pr.children = some i := by
  induction l with
  | nil => simp [findParentIn] at h
  | cons q qs ih =>
    rcases hq : cs q with _ | qr
    · simp only [findParentIn, hq] at h
      exact ih h
    · rcases hidx : firstIdxOf c qr.children with _ | j
      · simp only [findParentIn, hq, hidx] at h
        exact ih h
      · simp only [findParentIn, hq, hidx, Option.some.injEq, Prod.mk.injEq] at h
        rcases h with ⟨hpq, hij⟩
        subst hpq; subst hij
        exact ⟨qr, hq, hidx⟩

/-- The tree parent of `c`: the unique cell whose child list contains `c`. -/
def parentOf (m : Model n) (c : Fin n) : Option (Fin n × Nat) :=
  findParentIn m.cells c (List.finRange n)

theorem parentOf_sound (m : Model n) (c : Fin n) (p : Fin n) (i : Nat)
    (h : parentOf m c = some (p, i)) :
    ∃ pr, m.cells p = some pr ∧ firstIdxOf c pr.children = some i :=
  findParentIn_sound m.cells c _ p i h

/-- The chain of ancestors of `c` obtained by walking `parentOf`, bounded by
fuel. -/
def ancestorsOf (m : Model n) : Nat → Fin n → List (Fin n)
  | 0, _ => []
  | fuel + 1, c =>
    match parentOf m c with
    | some (p, _) => p :: ancestorsOf m fuel p
    | none => []

/-- Modelled from the spec: geometry validation — negative-dimension
geometries are rejected. -/
def geomOk : Option MxGeometry → Bool
  | none => true
  | some g => decide (0 ≤ g.width) && decide (0 ≤ g.height)

/-- Modelled from the spec: one primitive recorded step of a mutation.
`addCmd` covers both creating a cell under a parent and reparenting an
existing cell; `detach` removes a single cell from the tree and the registry
(the removal cascade issues one `detach` per subtree cell, children first). -/
inductive Cmd (n : Nat) where
  | addCmd (child : Fin n) (rc : CellRec n) (parent : Fin n) (index : Nat)
  | detach (child : Fin n)
  | setGeometryCmd (cell : Fin n) (g : Option MxGeometry)
  | setStyleCmd (cell : Fin n) (s : String)
  | setValueCmd (cell : Fin n) (v : String)
  | setTerminalCmd (edge : Fin n) (isSource : Bool) (t : Option (Fin n))
  | setVisibleCmd (cell : Fin n) (b : Bool)
  | setCollapsedCmd (cell : Fin n) (b : Bool)
  | setRootCmd (r : Option (Fin n))
  deriving DecidableEq

/-- Modelled from the spec: validates one primitive step against the current
state and, when valid, produces the change-log entry capturing both the prior
and the new state; invalid steps are rejected with no entry.  Validation
includes the cycle check (the proposed parent's ancestor walk must not reach
the cell) and the negative-dimension geometry rejection. -/
def captureCmd (m : Model n) : Cmd n → Option (Entry n)
  | Cmd.addCmd c rc p i =>
    match m.cells c with
    | none =>
      match m.cells p with
      | some pr =>
        if i ≤ pr.children.length then
          some (Entry.childChange c none (some (p, i)) rc)
        else none
      | none => none
    | some cur =>
      match parentOf m c with
      | some (p0, i0) =>
        if p0 = c then none
        else
          match m.cells p with
          | some pr =>
            if c = p ∨ c ∈ ancestorsOf m n p then none
            else if i ≤ pr.children.length then
              some (Entry.childChange c (some (p0, i0)) (some (p, i)) cur)
            else none
          | none => none
      | none => none
  | Cmd.detach c =>
    match m.cells c with
    | some cur =>
      match parentOf m c with
      | some (p0, i0) =>
        if p0 = c then none
        else some (Entry.childChange c (some (p0, i0)) none cur)
      | none => none
    | none => none
  | Cmd.setGeometryCmd c g =>
    match m.cells c with
    | some cur =>
      if geomOk g then some (Entry.geometryChange c cur.geometry g) else none
    | none => none
  | Cmd.setStyleCmd c s =>
    (m.cells c).map (fun cur => Entry.styleChange c cur.style s)
  | Cmd.setValueCmd c v =>
    (m.cells c).map (fun cur => Entry.valueChange c cur.value v)
  | Cmd.setTerminalCmd e isSrc t =>
    (m.cells e).map (fun cur =>
      Entry.terminalChange e isSrc (if isSrc then cur.source else cur.target) t)
  | Cmd.setVisibleCmd c b =>
    (m.cells c).map (fun cur => Entry.visibleChange c cur.visible b)
  | Cmd.setCollapsedCmd c b =>
    (m.cells c).map (fun cur => Entry.collapseChange c cur.collapsed b)
  | Cmd.setRootCmd r => some (Entry.rootChange m.root r)

theorem modCell_modCell_cancel (cs : Fin n → Option (CellRec n)) (c : Fin n)
    (cur : CellRec n) (hcur : cs c = some cur) (f g : CellRec n → CellRec n)
    (hfg : g (f cur) = cur) : modCell (modCell cs c f) c g = cs := by
  funext x
  by_cases hx : x = c
  · subst hx; simp [modCell, hcur, hfg]
  · simp [modCell, hx]

/-- Every entry produced by `captureCmd` from state `m` is exactly inverted by
`undoEntry`: applying it and then undoing it restores `m`. -/
theorem capture_apply_undo (m : Model n) (cmd : Cmd n) (e : Entry n)
    (h : captureCmd m cmd = some e) : undoEntry (applyEntry m e) e = m := by
  cases cmd with
  | addCmd c rc p i =>
    rcases hc : m.cells c with _ | cur
    · rcases hp : m.cells p with _ | pr
      · simp [captureCmd, hc, hp] at h
      · simp only [captureCmd, hc, hp] at h
        by_cases hi : i ≤ pr.children.length
        · rw [if_pos hi] at h
          injection h with h
          subst h
          have hpc : p ≠ c := by
            intro hEq; rw [hEq, hc] at hp; exact Option.noConfusion hp
          refine Model.ext_cells rfl ?_
          funext x
          by_cases hxc : x = c
          · subst hxc
            simp [undoEntry, invertEntry, applyEntry, updCell, modCell,
              Ne.symm hpc, hc]
          · by_cases hxp : x = p
            · subst hxp
              simp [undoEntry, invertEntry, applyEntry, updCell, modCell,
                hxc, hp, List.eraseIdx_insertIdx]
            · simp [undoEntry, invertEntry, applyEntry, updCell, modCell,
                hxc, hxp]
        · rw [if_neg hi] at h; exact Option.noConfusion h
    · rcases hpo : parentOf m c with _ | ⟨p0, i0⟩
      · simp [captureCmd, hc, hpo] at h
      · obtain ⟨pr0, hp0, hidx⟩ := parentOf_sound m c p0 i0 hpo
        simp only [captureCmd, hc, hpo] at h
        by_cases hp0c : p0 = c
        · rw [if_pos hp0c] at h; exact Option.noConfusion h
        · rw [if_neg hp0c] at h
          rcases hp : m.cells p with _ | pr
          · simp only [hp] at h
            exact Option.noConfusion h
          · simp only [hp] at h
            by_cases hcyc : c = p ∨ c ∈ ancestorsOf m n p
            · rw [if_pos hcyc] at h; exact Option.noConfusion h
            · rw [if_neg hcyc] at h
              by_cases hi : i ≤ pr.children.length
              · rw [if_pos hi] at h
                injection h with h
                subst h
                have hcp : c ≠ p := fun hEq => hcyc (Or.inl hEq)
                refine Model.ext_cells rfl ?_
                funext x
                by_cases hpp : p0 = p
                · subst hpp
                  have hprr : pr0 = pr := by
                    rw [hp0] at hp; exact (Option.some.injEq _ _).mp hp
                  subst hprr
                  by_cases hxp : x = p0
                  · subst hxp
                    simp [undoEntry, invertEntry, applyEntry, updCell, modCell,
                      hp0, List.eraseIdx_insertIdx,
                      insertIdx_eraseIdx_firstIdx c pr0.children i0 hidx]
                  · simp [undoEntry, invertEntry, applyEntry, updCell, modCell,
                      hxp]
                · by_cases hxp0 : x = p0
                  · subst hxp0
                    simp [undoEntry, invertEntry, applyEntry, updCell, modCell,
                      hpp, hp0,
                      insertIdx_eraseIdx_firstIdx c pr0.children i0 hidx]
                  · by_cases hxp : x = p
                    · subst hxp
                      simp [undoEntry, invertEntry, applyEntry, updCell,
                        modCell, Ne.symm hpp, hxp0, hp,
                        List.eraseIdx_insertIdx]
                    · simp [undoEntry, invertEntry, applyEntry, updCell,
                        modCell, hxp0, hxp]
              · rw [if_neg hi] at h; exact Option.noConfusion h
  | detach c =>
    rcases hc : m.cells c with _ | cur
    · simp [captureCmd, hc] at h
    · rcases hpo : parentOf m c with _ | ⟨p0, i0⟩
      · simp [captureCmd, hc, hpo] at h
      · obtain ⟨pr0, hp0, hidx⟩ := parentOf_sound m c p0 i0 hpo
        simp only [captureCmd, hc, hpo] at h
        by_cases hp0c : p0 = c
        · rw [if_pos hp0c] at h; exact Option.noConfusion h
        · rw [if_neg hp0c] at h
          injection h with h
          subst h
          refine Model.ext_cells rfl ?_
          funext x
          by_cases hxc : x = c
          · subst hxc
            simp [undoEntry, invertEntry, applyEntry, updCell, modCell,
              Ne.symm hp0c, hc]
          · by_cases hxp : x = p0
            · subst hxp
              simp [undoEntry, invertEntry, applyEntry, updCell, modCell,
                hxc, hp0c, hp0,
                insertIdx_eraseIdx_firstIdx c pr0.children i0 hidx]
            · simp [undoEntry, invertEntry, applyEntry, updCell, modCell,
                hxc, hxp]
  | setGeometryCmd c g =>
    rcases hc : m.cells c with _ | cur
    · simp [captureCmd, hc] at h
    · simp only [captureCmd, hc] at h
      by_cases hg : geomOk g
      · rw [if_pos hg] at h
        injection h with h
        subst h
        exact Model.ext_cells rfl
          (modCell_modCell_cancel m.cells c cur hc _ _ rfl)
      · rw [if_neg hg] at h; exact Option.noConfusion h
  | setStyleCmd c s =>
    rcases hc : m.cells c with _ | cur
    · simp [captureCmd, hc] at h
    · simp only [captureCmd, hc, Option.map_some', Option.some.injEq] at h
      subst h
      exact Model.ext_cells rfl
        (modCell_modCell_cancel m.cells c cur hc _ _ rfl)
  | setValueCmd c v =>
    rcases hc : m.cells c with _ | cur
    · simp [captureCmd, hc] at h
    · simp only [captureCmd, hc, Option.map_some', Option.some.injEq] at h
      subst h
      exact Model.ext_cells rfl
        (modCell_modCell_cancel m.cells c cur hc _ _ rfl)
  | setTerminalCmd c isSrc t =>
    rcases hc : m.cells c with _ | cur
    · simp [captureCmd, hc] at h
    · simp only [captureCmd, hc, Option.map_some', Option.some.injEq] at h
      subst h
      cases isSrc
      · exact Model.ext_cells rfl
          (modCell_modCell_cancel m.cells c cur hc _ _ (by simp))
      · exact Model.ext_cells rfl
          (modCell_modCell_cancel m.cells c cur hc _ _ (by simp))
  | setVisibleCmd c b =>
    rcases hc : m.cells c with _ | cur
    · simp [captureCmd, hc] at h
    · simp only [captureCmd, hc, Option.map_some', Option.some.injEq] at h
      subst h
      exact Model.ext_cells rfl
        (modCell_modCell_cancel m.cells c cur hc _ _ rfl)
  | setCollapsedCmd c b =>
    rcases hc : m.cells c with _ | cur
    · simp [captureCmd, hc] at h
    · simp only [captureCmd, hc, Option.map_some', Option.some.injEq] at h
      subst h
      exact Model.ext_cells rfl
        (modCell_modCell_cancel m.cells c cur hc _ _ rfl)
  | setRootCmd r =>
    simp only [captureCmd, Option.some.injEq] at h
    subst h
    rfl

/-- Runs a list of primitive steps: each step is validated against the current
state; valid steps apply and append their entry, invalid steps are rejected
with no entry. -/
def runCmds (m : Model n) : List (Cmd n) → Model n × List (Entry n)
  | [] => (m, [])
  | cmd :: rest =>
    match captureCmd m cmd with
    | none => runCmds m rest
    | some e =>
      let r := runCmds (applyEntry m e) rest
      (r.1, e :: r.2)

/-- Undoes a change log: applies the entries backward, last-to-first. -/
def undoEntries (m : Model n) (es : List (Entry n)) : Model n :=
  es.reverse.foldl undoEntry m

@[simp] theorem undoEntries_nil (m : Model n) : undoEntries m [] = m := rfl

theorem undoEntries_cons (m : Model n) (e : Entry n) (es : List (Entry n)) :
    undoEntries m (e :: es) = undoEntry (undoEntries m es) e := by
  simp [undoEntries, List.foldl_append]

theorem undoEntries_append (m : Model n) (as bs : List (Entry n)) :
    undoEntries m (as ++ bs) = undoEntries (undoEntries m bs) as := by
  simp [undoEntries, List.reverse_append, List.foldl_append]

theorem undoEntries_runCmds (cmds : List (Cmd n)) (m : Model n) :
    undoEntries (runCmds m cmds).1 (runCmds m cmds).2 = m := by
  induction cmds generalizing m with
  | nil => rfl
  | cons cmd rest ih =>
    rcases hcap : captureCmd m cmd with _ | e
    · simp only [runCmds, hcap]
      exact ih m
    · simp only [runCmds, hcap]
      rw [undoEntries_cons, ih (applyEntry m e)]
      exact capture_apply_undo m cmd e hcap

/-- Modelled from the spec: the primitive mutation operations of the graph
model API. -/
inductive Mutation (n : Nat) where
  | add (child : Fin n) (rc : CellRec n) (parent : Fin n) (index : Nat)
  | remove (cell : Fin n)
  | setGeometry (cell : Fin n) (g : Option MxGeometry)
  | setStyle (cell : Fin n) (s : String)
  | setValue (cell : Fin n) (v : String)
  | setTerminal (edge : Fin n) (isSource : Bool) (t : Option (Fin n))
  | setVisible (cell : Fin n) (b : Bool)
  | setCollapsed (cell : Fin n) (b : Bool)
  | setRoot (r : Option (Fin n))
  deriving DecidableEq

/-- The subtree below a cell in depth-first, children-before-parent order,
bounded by fuel. -/
def postOrderIds (m : Model n) : Nat → Fin n → List (Fin n)
  | 0, _ => []
  | fuel + 1, c =>
    (match m.cells c with
     | some r => r.children.flatMap (postOrderIds m fuel)
     | none => []) ++ [c]

/-- True when an optional terminal reference points into `removed`. -/
def optMem (o : Option (Fin n)) (l : List (Fin n)) : Bool :=
  match o with
  | some s => decide (s ∈ l)
  | none => false

/-- The TerminalChange-producing steps of the removal cascade: for every
remaining cell outside the removed subtree whose source or target terminal
points into the subtree, clear that terminal reference (dangling edge). -/
def terminalClearCmds (m : Model n) (removed : List (Fin n)) : List (Cmd n) :=
  (List.finRange n).flatMap (fun c =>
    match m.cells c with
    | none => []
    | some r =>
      (if !(decide (c ∈ removed)) && optMem r.source removed
        then [Cmd.setTerminalCmd c true none] else []) ++
      (if !(decide (c ∈ removed)) && optMem r.target removed
        then [Cmd.setTerminalCmd c false none] else []))

/-- Modelled from the spec: expands one mutation into its primitive recorded
steps.  `remove` cascades: first clear the terminals of remaining edges
pointing into the removed subtree, then detach the subtree cells depth-first,
children before parents. -/
def planMutation (m : Model n) : Mutation n → List (Cmd n)
  | Mutation.add c rc p i => [Cmd.addCmd c rc p i]
  | Mutation.remove c =>
    match m.cells c with
    | none => []
    | some _ =>
      let removed := postOrderIds m n c
      terminalClearCmds m removed ++ removed.map Cmd.detach
  | Mutation.setGeometry c g => [Cmd.setGeometryCmd c g]
  | Mutation.setStyle c s => [Cmd.setStyleCmd c s]
  | Mutation.setValue c v => [Cmd.setValueCmd c v]
  | Mutation.setTerminal e isSrc t => [Cmd.setTerminalCmd e isSrc t]
  | Mutation.setVisible c b => [Cmd.setVisibleCmd c b]
  | Mutation.setCollapsed c b => [Cmd.setCollapsedCmd c b]
  | Mutation.setRoot r => [Cmd.setRootCmd r]

/-- Runs the mutations of one outermost transaction in order, accumulating
the change log; each mutation is planned against the state it observes. -/
def runMutations (m : Model n) : List (Mutation n) → Model n × List (Entry n)
  | [] => (m, [])
  | mu :: rest =>
    let r1 := runCmds m (planMutation m mu)
    let r2 := runMutations r1.1 rest
    (r2.1, r1.2 ++ r2.2)

theorem undoEntries_runMutations (mus : List (Mutation n)) (m : Model n) :
    undoEntries (runMutations m mus).1 (runMutations m mus).2 = m := by
  induction mus generalizing m with
  | nil => rfl
  | cons mu rest ih =>
    simp only [runMutations]
    rw [undoEntries_append, ih]
    exact undoEntries_runCmds _ m

/-- Modelled from the spec: the model plus its undo manager — a bounded undo
stack (newest edit first), a redo stack and the configured maximum size. -/
structure UndoSystem (n : Nat) where
  model : Model n
  maxSize : Nat
  history : List (List (Entry n))
  redo : List (List (Entry n))

/-- Modelled from the spec: commits one outermost transaction.  An edit with
zero entries is never pushed; otherwise the log is wrapped as an UndoableEdit,
pushed on the undo stack — trimming the oldest edits beyond `maxSize` — and
the redo stack is cleared. -/
def commitTransaction (s : UndoSystem n) (ops : List (Mutation n)) :
    UndoSystem n :=
  match runMutations s.model ops with
  | (m2, []) => { s with model := m2 }
  | (m2, e :: es) =>
    { model := m2, maxSize := s.maxSize,
      history := ((e :: es) :: s.history).take s.maxSize, redo := [] }

/-- Commits a sequence of transactions. -/
def applyTransactions (s : UndoSystem n) :
    List (List (Mutation n)) → UndoSystem n
  | [] => s
  | t :: ts => applyTransactions (commitTransaction s t) ts

/-- Modelled from the spec: `undo()` pops the most recent edit, applies its
entries in reverse order, and pushes the edit on the redo stack; an empty
stack is a no-op. -/
def undo (s : UndoSystem n) : UndoSystem n :=
  match s.history with
  | [] => s
  | es :: rest =>
    { model := undoEntries s.model es, maxSize := s.maxSize,
      history := rest, redo := es :: s.redo }

/-- Iterates `undo`. -/
def undoAllLoop : Nat → UndoSystem n → UndoSystem n
  | 0, s => s
  | fuel + 1, s => undoAllLoop fuel (undo s)

/-- Calls `undo()` repeatedly until the undo stack is empty (each call pops
one edit, so the current stack length bounds the iteration). -/
def undoAll (s : UndoSystem n) : UndoSystem n :=
  undoAllLoop s.history.length s

theorem undoAllLoop_model (hist : List (List (Entry n))) (m : Model n)
    (msize : Nat) (rd : List (List (Entry n))) :
    (undoAllLoop hist.length ⟨m, msize, hist, rd⟩).model =
      hist.foldl undoEntries m := by
  induction hist generalizing m rd with
  | nil => rfl
  | cons es rest ih =>
    simp only [List.length_cons, undoAllLoop, undo, List.foldl_cons]
    exact ih (undoEntries m es) (es :: rd)

theorem undoAll_model (s : UndoSystem n) :
    (undoAll s).model = s.history.foldl undoEntries s.model := by
  cases s with
  | mk m msize hist rd => exact undoAllLoop_model hist m msize rd

theorem commitTransaction_maxSize (s : UndoSystem n) (t : List (Mutation n)) :
    (commitTransaction s t).maxSize = s.maxSize := by
  rcases hr : runMutations s.model t with ⟨m2, es⟩
  cases es <;> simp [commitTransaction, hr]

theorem commitTransaction_histLen (s : UndoSystem n) (t : List (Mutation n)) :
    (commitTransaction s t).history.length ≤ s.history.length + 1 := by
  rcases hr : runMutations s.model t with ⟨m2, es⟩
  cases es with
  | nil =>
    simp [commitTransaction, hr]
  | cons e es2 =>
    simp only [commitTransaction, hr]
    have := List.length_take s.maxSize (((e :: es2) :: s.history))
    simp only [this, List.length_cons]
    omega

theorem commitTransaction_inv (s : UndoSystem n) (t : List (Mutation n))
    (h : s.history.length + 1 ≤ s.maxSize) :
    (commitTransaction s t).history.foldl undoEntries
        (commitTransaction s t).model =
      s.history.foldl undoEntries s.model := by
  rcases hr : runMutations s.model t with ⟨m2, es⟩
  have hrt := undoEntries_runMutations t s.model
  rw [hr] at hrt
  cases es with
  | nil =>
    have hm : m2 = s.model := by simpa using hrt
    simp [commitTransaction, hr, hm]
  | cons e es2 =>
    have hlen : (((e :: es2)) :: s.history).length ≤ s.maxSize := by
      simp only [List.length_cons]
      omega
    simp only [commitTransaction, hr, List.take_of_length_le hlen,
      List.foldl_cons]
    rw [hrt]

theorem applyTransactions_inv (ts : List (List (Mutation n)))
    (s : UndoSystem n) (h : s.history.length + ts.length ≤ s.maxSize) :
    (applyTransactions s ts).history.foldl undoEntries
        (applyTransactions s ts).model =
      s.history.foldl undoEntries s.model := by
  induction ts generalizing s with
  | nil => rfl
  | cons t ts ih =>
    simp only [List.length_cons] at h
    have hstep := commitTransaction_inv s t (by omega)
    have hlen2 : (commitTransaction s t).history.length + ts.length ≤
        (commitTransaction s t).maxSize := by
      have h1 := commitTransaction_histLen s t
      rw [commitTransaction_maxSize]
      omega
    simp only [applyTransactions]
    rw [ih (commitTransaction s t) hlen2, hstep]

/-- A freshly constructed editor: the given model with empty undo and redo
stacks and the configured maximum history size. -/
def initialSystem (m0 : Model n) (maxSize : Nat) : UndoSystem n :=
  ⟨m0, maxSize, [], []⟩

/-- A one-cell model used as a concrete initial state. -/
def cexRec : CellRec 1 :=
  { value := "init", style := "", geometry := none, vertex := true,
    edge := false, visible := true, collapsed := false, source := none,
    target := none, children := [] }

/-- Concrete initial model for the undo-history examples. -/
def cexModel : Model 1 :=
  { root := some 0, cells := fun _ => some cexRec }

/-- Two committed transactions, each changing the cell value once. -/
def cexTxns : List (List (Mutation 1)) :=
  [[Mutation.setValue 0 "first"], [Mutation.setValue 0 "second"]]

/-- C1 (counterexample): the undo stack is bounded by the configurable
maximum size and trims its oldest edit on overflow, so with the maximum set
to 1, committing two value-changing transactions and then undoing until the
stack is empty does not restore the initial model — the model stays at the
state after the first (trimmed) transaction. -/
theorem undoAll_not_initial_when_trimmed :
    ¬ (undoAll (applyTransactions (initialSystem cexModel 1) cexTxns)).model =
      cexModel := by
  intro hEq
  exact absurd (congrArg (fun mm => mm.cells 0) hEq) (by decide)

/-- C1 (amended): for every initial model and every sequence of committed
transactions whose length does not exceed the undo manager's configured
maximum history size, calling `undo()` repeatedly until the undo stack is
empty restores the model to its exact initial state (equality of the root
pointer and of every cell record: geometry, style, value, flags, terminals
and ordered children). -/
theorem undoAll_restores_initial (m0 : Model n) (maxSize : Nat)
    (txns : List (List (Mutation n))) (h : txns.length ≤ maxSize) :
    (undoAll (applyTransactions (initialSystem m0 maxSize) txns)).model = m0 := by
  rw [undoAll_model]
  have hinv := applyTransactions_inv txns (initialSystem m0 maxSize)
    (by simpa [initialSystem] using h)
  simpa [initialSystem] using hinv

/-- Witness for C1 (amended): a concrete one-transaction history inside the
default bound restores the initial model exactly. -/
theorem undoAll_restores_initial_witness :
    ([[Mutation.setValue (0 : Fin 1) "x"]] : List (List (Mutation 1))).length ≤
      100 ∧
    (undoAll (applyTransactions (initialSystem cexModel 100)
        [[Mutation.setValue (0 : Fin 1) "x"]])).model = cexModel :=
  ⟨by decide,
    undoAll_restores_initial cexModel 100 [[Mutation.setValue 0 "x"]] (by decide)⟩

/-- Modelled from the spec: the named-parameter object taken by
`graph.insertVertex` — parent, value, `position: [x, y]` and `size: [w, h]`. -/
structure InsertVertexParams (n : Nat) where
  parent : Fin n
  value : String
  position : Int × Int
  size : Int × Int

/-- Modelled from the spec: the named-parameter object read by
`graph.insertEdge` — parent, value and the `source` / `target` terminals
(absent keys are `none`). -/
structure InsertEdgeParams (n : Nat) where
  parent : Fin n
  value : String
  source : Option (Fin n)
  target : Option (Fin n)

/-- Modelled from the spec: `insertVertex` adds a new vertex cell under the
given parent whose geometry is built from the `position` and `size` entries. -/
def insertVertexMutation (id : Fin n) (index : Nat) (p : InsertVertexParams n) :
    Mutation n :=
  Mutation.add id
    { value := p.value, style := "",
      geometry := some ⟨p.position.1, p.position.2, p.size.1, p.size.2, []⟩,
      vertex := true, edge := false, visible := true, collapsed := false,
      source := none, target := none, children := [] }
    p.parent index

/-- Modelled from the spec: `insertEdge` adds a new edge cell under the given
parent whose terminals are the `source` and `target` entries of the
parameter object. -/
def insertEdgeMutation (id : Fin n) (index : Nat) (p : InsertEdgeParams n) :
    Mutation n :=
  Mutation.add id
    { value := p.value, style := "", geometry := none,
      vertex := false, edge := true, visible := true, collapsed := false,
      source := p.source, target := p.target, children := [] }
    p.parent index

/-- The empty starting model of the two-vertices-and-edge scenarios: a root
cell (id 0) owning one default-parent layer (id 1); ids 2, 3, 4 are free for
vertex A, vertex B and the edge. -/
def scenarioBase : Model 5 :=
  { root := some 0,
    cells := fun x =>
      if x = 0 then
        some { value := "", style := "", geometry := none, vertex := false,
               edge := false, visible := true, collapsed := false,
               source := none, target := none, children := [1] }
      else if x = 1 then
        some { value := "", style := "", geometry := none, vertex := false,
               edge := false, visible := true, collapsed := false,
               source := none, target := none, children := [] }
      else none }

/-- Arguments of the first `insertVertex` call of both scenarios
(src/unnamed/part_000 lines 104-110 and Editing.js lines 257-262): value
"Hello,", position [20, 20], size [80, 30], parent = default layer. -/
def vertexAArgs : InsertVertexParams 5 :=
  { parent := 1, value := "Hello,", position := (20, 20), size := (80, 30) }

/-- Arguments of the second `insertVertex` call of both scenarios
(src/unnamed/part_000 lines 111-117 and Editing.js lines 263-268): value
"World!", position [200, 150], size [80, 30]. -/
def vertexBArgs : InsertVertexParams 5 :=
  { parent := 1, value := "World!", position := (200, 150), size := (80, 30) }

/-- Arguments of the `insertEdge` call at src/unnamed/part_000 lines 118-123:
the object passes v1 and v2 under the keys `position` and `size`, so the
`source` and `target` keys that `insertEdge` reads are absent. -/
def anchorsEdgeArgs : InsertEdgeParams 5 :=
  { parent := 1, value := "", source := none, target := none }

/-- Arguments of the `insertEdge` call at
src/src/pages/editing/Editing.js lines 269-273: source v1 (id 2), target v2
(id 3). -/
def dragSourceEdgeArgs : InsertEdgeParams 5 :=
  { parent := 1, value := "", source := some 2, target := some 3 }

/-- The single `batchUpdate` transaction of the Anchors story
(src/unnamed/part_000 lines 103-124). -/
def anchorsBatch : List (Mutation 5) :=
  [insertVertexMutation 2 0 vertexAArgs,
   insertVertexMutation 3 1 vertexBArgs,
   insertEdgeMutation 4 2 anchorsEdgeArgs]

/-- The single `batchUpdate` transaction of the DragSource page
(src/src/pages/editing/Editing.js lines 256-274). -/
def dragSourceBatch : List (Mutation 5) :=
  [insertVertexMutation 2 0 vertexAArgs,
   insertVertexMutation 3 1 vertexBArgs,
   insertEdgeMutation 4 2 dragSourceEdgeArgs]

/-- The model after committing the Anchors transaction on the empty model. -/
def anchorsResult : Model 5 :=
  (commitTransaction (initialSystem scenarioBase 100) anchorsBatch).model

/-- The model after committing the DragSource transaction on the empty
model. -/
def dragSourceResult : Model 5 :=
  (commitTransaction (initialSystem scenarioBase 100) dragSourceBatch).model

/-- C4 (code evaluation): in the Anchors story the `insertEdge` call passes
v1 and v2 under the keys `position` and `size`, so the inserted edge ends up
with null source and target terminals; the parallel DragSource call, which
passes `source: v1, target: v2`, produces the edge A→B the claim describes. -/
theorem anchors_edge_has_null_terminals :
    (anchorsResult.cells 4).map (fun r => (r.source, r.target)) =
      some (none, none) ∧
    (dragSourceResult.cells 4).map (fun r => (r.source, r.target)) =
      some (some 2, some 3) := by
  constructor <;> decide

/-- C5 (counterexample): vertex A ("Hello,") is not inserted with geometry
(0, 0, 80, 30) — its recorded position is (20, 20). -/
theorem vertexA_geometry_not_origin :
    ¬ ((anchorsResult.cells 2).bind (fun r => r.geometry) =
      some ⟨0, 0, 80, 30, []⟩) := by
  decide

/-- C5 (amended): in the two-vertices-and-edge scenario, vertex A is inserted
with geometry (20, 20, 80, 30) and vertex B with geometry (200, 150, 80, 30),
both within a single transaction on an initially empty model. -/
theorem scenario_vertex_geometries :
    (anchorsResult.cells 2).bind (fun r => r.geometry) =
      some ⟨20, 20, 80, 30, []⟩ ∧
    (anchorsResult.cells 3).bind (fun r => r.geometry) =
      some ⟨200, 150, 80, 30, []⟩ := by
  constructor <;> decide

end GraphModelSpec
